import Mathlib

/-!
Verification of the AG_NEWS text-classification tutorial script
(`beginner_source/text_sentiment_ngrams_tutorial.py`).

The script builds a vocabulary over a news corpus, defines text/label
pipelines, collates batches into (labels, concatenated tokens, offsets),
trains an embedding-bag classifier for a fixed number of epochs, and runs
one inference example.  We embed the data preparation functions, the
model forward pass, the initialization, the evaluation function, the
epoch/scheduler loop, and the final `predict` function, and prove the
specification claims about them.

External library pieces (the `basic_english` tokenizer, the vocabulary
lookup table, `nn.EmbeddingBag`, `uniform_`, `StepLR`) are modelled from
the behaviour the spec ascribes to them; everything else is translated
directly from the Python source.
-/

namespace AgNews

/-- A vocabulary: a finite token → index table plus a default index
returned for tokens not present.  In the script
`vocab.set_default_index(vocab["<unk>"])` makes the default index the
index of the special token `<unk>`, which is 0 because `<unk>` is the
sole entry of `specials`. -/
structure Vocab where
  table : List (String × Nat)
  default_index : Nat

/-- Modelled from the spec: vocabulary lookup "maps each distinct token to
its integer index, plus a designated default index returned for any token
not present" (the torchtext `Vocab.__call__` per-token lookup). -/
def Vocab.lookup (v : Vocab) (t : String) : Nat :=
  (v.table.lookup t).getD v.default_index

/-- ASCII lowercasing of one character. -/
def toLowerChar (c : Char) : Char :=
  if 65 ≤ c.toNat ∧ c.toNat ≤ 90 then Char.ofNat (c.toNat + 32) else c

/-- Split a character list at every occurrence of `sep` (the accumulator
holds the current word reversed). -/
def splitAux (sep : Char) : List Char → List Char → List (List Char)
  | [], cur => [cur.reverse]
  | c :: rest, cur =>
    if c = sep then cur.reverse :: splitAux sep rest [] else splitAux sep rest (c :: cur)

/-- Modelled from the spec: the external `basic_english` tokenizer "splits
raw text into a sequence of lowercase word tokens" — lowercase the text,
split on spaces, drop empty words. -/
def basic_english (s : String) : List String :=
  ((splitAux ' ' (s.data.map toLowerChar) []).map String.mk).filter (fun w => w ≠ "")

/-- `text_pipeline = lambda x: vocab(tokenizer(x))` — tokenize, then map
every token through the vocabulary (source line 81). -/
def text_pipeline (tok : String → List String) (v : Vocab) (x : String) : List Nat :=
  (tok x).map v.lookup

/-- Value of one decimal digit character, `none` otherwise. -/
def digitVal (c : Char) : Option Nat :=
  if 48 ≤ c.toNat ∧ c.toNat ≤ 57 then some (c.toNat - 48) else none

/-- Parse a run of decimal digits left to right onto an accumulator;
fails on the first non-digit. -/
def parseNatGo : List Char → Nat → Option Nat
  | [], acc => some acc
  | c :: rest, acc =>
    match digitVal c with
    | some d => parseNatGo rest (acc * 10 + d)
    | none => none

/-- Modelled from the spec: Python `int(x)` on a string — an optional
sign followed by at least one decimal digit; anything else raises
`ValueError` (here: `none`). -/
def str_to_int (s : String) : Option Int :=
  match s.data with
  | [] => none
  | '-' :: rest =>
    match rest with
    | [] => none
    | _ => (parseNatGo rest 0).map (fun n => -(n : Int))
  | cs => (parseNatGo cs 0).map (fun n => (n : Int))

/-- `label_pipeline = lambda x: int(x) - 1` (source line 82).  Python
`int` raises on a non-numeric string, hence the `Option`. -/
def label_pipeline (x : String) : Option Int :=
  (str_to_int x).map (fun n => n - 1)

/-- Running sums onto an accumulator. -/
def cumsumFrom (acc : Nat) : List Nat → List Nat
  | [] => []
  | c :: rest => (acc + c) :: cumsumFrom (acc + c) rest

/-- Running sums of a list: `cumsum [a, b, c] = [a, a+b, a+b+c]`,
mirroring `torch.cumsum(dim=0)`. -/
def cumsum (l : List Nat) : List Nat := cumsumFrom 0 l

/-- `collate_batch` (source lines 114–124).  The dataset yields integer
labels, so `label_pipeline(_label)` is `int(_label) - 1 = _label - 1`.
The offsets list starts as `[0] ++ per-sample token counts`; the code
drops the last entry and takes cumulative sums
(`offsets = torch.tensor(offsets[:-1]).cumsum(dim=0)`), and concatenates
the encoded texts (`text_list = torch.cat(text_list)`). -/
def collate_batch (tok : String → List String) (v : Vocab)
    (batch : List (Int × String)) : List Int × List Nat × List Nat :=
  let label_list := batch.map (fun s => s.1 - 1)
  let text_lists := batch.map (fun s => text_pipeline tok v s.2)
  let counts := text_lists.map List.length
  let offsets := cumsum ((0 :: counts).dropLast)
  (label_list, text_lists.flatten, offsets)

/-! ### The classification model -/

/-- The zero vector of a given dimension. -/
def vzero (dim : Nat) : List ℚ := List.replicate dim 0

/-- Componentwise vector addition. -/
def vadd (a b : List ℚ) : List ℚ := List.zipWith (· + ·) a b

/-- Sum of a list of vectors of dimension `dim`. -/
def vsum (dim : Nat) (vs : List (List ℚ)) : List ℚ := vs.foldl vadd (vzero dim)

/-- Scalar multiple of a vector. -/
def vscale (c : ℚ) (v : List ℚ) : List ℚ := v.map (fun x => c * x)

/-- Dot product. -/
def dot (a b : List ℚ) : ℚ := (List.zipWith (· * ·) a b).sum

/-- The row of the embedding table for a token id (out-of-range ids give
the zero row; the script never produces them since every vocabulary index
is below `vocab_size`). -/
def embRow (emb : List (List ℚ)) (dim tokenId : Nat) : List ℚ :=
  emb.getD tokenId (vzero dim)

/-- Modelled from the spec: the external `nn.EmbeddingBag` in its default
mean mode computes, for one bag of token ids, "the arithmetic mean of the
embedding vectors of its tokens (a sample with zero tokens is a
degenerate edge case — ... e.g. zero vector)". -/
def bagMean (emb : List (List ℚ)) (dim : Nat) (tokens : List Nat) : List ℚ :=
  if tokens.length = 0 then vzero dim
  else vscale (1 / (tokens.length : ℚ)) (vsum dim (tokens.map (embRow emb dim)))

/-- Split the flattened token buffer into per-sample bags: bag `i` starts
at `offsets[i]` and ends at `offsets[i+1]` (the last bag runs to the end
of the buffer). -/
def bagSlices (text : List Nat) : List Nat → List (List Nat)
  | [] => []
  | [o] => [text.drop o]
  | o1 :: o2 :: rest => (text.drop o1).take (o2 - o1) :: bagSlices text (o2 :: rest)

/-- The parameters of `TextClassificationModel`: an `nn.EmbeddingBag`
weight matrix (`vocab_size × embed_dim`), an `nn.Linear` weight matrix
(`num_class × embed_dim`) and its bias (`num_class`). -/
structure TextClassificationModel where
  embedding : List (List ℚ)
  fc_weight : List (List ℚ)
  fc_bias : List ℚ

/-- `self.fc`: the linear layer applied to one embedded vector, producing
one logit per class row. -/
def linear (w : List (List ℚ)) (b : List ℚ) (v : List ℚ) : List ℚ :=
  List.zipWith (fun row bi => dot row v + bi) w b

/-- `forward(text, offsets)` (source lines 159–161):
`embedded = self.embedding(text, offsets); return self.fc(embedded)` —
one mean-pooled embedding per offset-delimited sample, then the linear
layer, giving one logit row per sample. -/
def forward (m : TextClassificationModel) (dim : Nat)
    (text : List Nat) (offsets : List Nat) : List (List ℚ) :=
  ((bagSlices text offsets).map (bagMean m.embedding dim)).map
    (linear m.fc_weight m.fc_bias)

/-- `initrange = 0.5` (source line 154). -/
def initrange : ℚ := 1/2

/-- Modelled from the spec: `tensor.uniform_(a, b)` draws every entry
"uniformly from a fixed symmetric range"; each entry is `a + (b - a) * u`
for a raw draw `u ∈ [0, 1]`. -/
def uniformDraw (a b u : ℚ) : ℚ := a + (b - a) * u

/-- `init_weights` (source lines 153–157): fill the embedding weight and
the linear weight with uniform draws from `[-initrange, initrange]` and
zero the linear bias.  `uE`/`uW` are the raw `[0,1]` draws supplied by
the random number generator. -/
def init_weights (vocab_size embed_dim num_class : Nat)
    (uE uW : Nat → Nat → ℚ) : TextClassificationModel :=
  { embedding := (List.range vocab_size).map (fun i =>
      (List.range embed_dim).map (fun j => uniformDraw (-initrange) initrange (uE i j)))
    fc_weight := (List.range num_class).map (fun i =>
      (List.range embed_dim).map (fun j => uniformDraw (-initrange) initrange (uW i j)))
    fc_bias := List.replicate num_class 0 }

/-! ### Evaluation, the epoch loop and prediction -/

/-- `torch.argmax` over one logit row: the index of the first maximal
entry (`0` for an empty row, which the script never produces). -/
def argmaxAux (best : Nat) (bestVal : ℚ) (i : Nat) : List ℚ → Nat
  | [] => best
  | x :: xs => if bestVal < x then argmaxAux i x (i + 1) xs else argmaxAux best bestVal (i + 1) xs

/-- Index of the first maximal entry of a row. -/
def argmax : List ℚ → Nat
  | [] => 0
  | x :: xs => argmaxAux 0 x 1 xs

/-- One collated batch as produced by `collate_batch`. -/
structure Batch where
  labels : List Int
  text : List Nat
  offsets : List Nat

/-- `(predited_label.argmax(1) == label).sum().item()` for one batch: the
number of samples whose argmax logit equals the true label. -/
def batchCorrect (m : TextClassificationModel) (dim : Nat) (b : Batch) : Nat :=
  (List.zipWith (fun row lab => if (argmax row : Int) = lab then 1 else 0)
    (forward m dim b.text b.offsets) b.labels).sum

/-- `evaluate(dataloader)` (source lines 218–228): under
`torch.no_grad()` run the same `forward` as training on every batch,
accumulate `total_acc` and `total_count`, and return
`total_acc / total_count`.  No statement writes to the model, so the
parameters come back unchanged. -/
def evaluate (m : TextClassificationModel) (dim : Nat) (data : List Batch) :
    TextClassificationModel × ℚ :=
  let r := data.foldl
    (fun acc b => (acc.1 + batchCorrect m dim b, acc.2 + b.labels.length)) (0, 0)
  (m, (r.1 : ℚ) / (r.2 : ℚ))

/-- Total number of correct predictions over a dataset. -/
def totalCorrect (m : TextClassificationModel) (dim : Nat) (data : List Batch) : Nat :=
  (data.map (batchCorrect m dim)).sum

/-- Total number of samples over a dataset. -/
def totalCount (data : List Batch) : Nat :=
  (data.map (fun b => b.labels.length)).sum

/-- `EPOCHS = 10` (source line 255). -/
def EPOCHS : Nat := 10

/-- `LR = 5` (source line 256). -/
def LR : ℚ := 5

/-- `gamma=0.1` of `StepLR(optimizer, 1.0, gamma=0.1)` (source line 261). -/
def gamma : ℚ := 1/10

/-- The mutable state the epoch loop threads: the optimizer's learning
rate and `total_accu`, the best validation accuracy seen so far
(`total_accu = None` initially, source line 262). -/
structure LoopState where
  lr : ℚ
  total_accu : Option ℚ
deriving DecidableEq

/-- Modelled from the spec: `scheduler.step()` for
`StepLR(optimizer, 1.0, gamma=0.1)` decays "the learning rate by a fixed
multiplicative factor": each call multiplies the current rate by
`gamma`. -/
def scheduler_step (s : LoopState) : LoopState :=
  { s with lr := s.lr * gamma }

/-- The end-of-epoch update (source lines 281–284):
`if total_accu is not None and total_accu > accu_val: scheduler.step()
else: total_accu = accu_val`. -/
def epoch_update (s : LoopState) (accu_val : ℚ) : LoopState :=
  match s.total_accu with
  | some best => if best > accu_val then scheduler_step s
                 else { s with total_accu := some accu_val }
  | none => { s with total_accu := some accu_val }

/-- The two passes an epoch runs and the splits they run over. -/
inductive EpochPass
  | trainOnTrainSplit
  | evalOnValidSplit
deriving DecidableEq

/-- What one iteration of the epoch loop does: its epoch number and the
passes it executes, in order. -/
structure EpochRecord where
  epoch : Nat
  passes : List EpochPass
deriving DecidableEq

/-- The epoch loop (source lines 277–290):
`for epoch in range(1, EPOCHS + 1)` runs `train(train_dataloader)`, then
`accu_val = evaluate(valid_dataloader)`, then the scheduler/`total_accu`
update; the body contains no `break`.  `accu` abstracts the validation
accuracy measured at each epoch (it depends on the stochastic training);
the loop returns the final state and the trace of iterations. -/
def epoch_loop (accu : Nat → ℚ) : LoopState × List EpochRecord :=
  (List.range' 1 EPOCHS).foldl
    (fun st epoch =>
      (epoch_update st.1 (accu epoch),
       st.2 ++ [{ epoch := epoch
                  passes := [EpochPass.trainOnTrainSplit, EpochPass.evalOnValidSplit] }]))
    ({ lr := LR, total_accu := none }, [])

/-- `ag_news_label` (source lines 319–322). -/
def ag_news_label : List (Nat × String) :=
  [(1, "World"), (2, "Sports"), (3, "Business"), (4, "Sci/Tec")]

/-- `predict(text, text_pipeline)` (source lines 324–328): encode the
text, run the model on the single bag delimited by `offsets = [0]`, and
return `output.argmax(1).item() + 1`. -/
def predict (m : TextClassificationModel) (dim : Nat)
    (tok : String → List String) (v : Vocab) (text : String) : Nat :=
  let encoded := text_pipeline tok v text
  let output := forward m dim encoded [0]
  argmax (output.headD []) + 1

/-- The vocabulary fragment of the end-to-end scenario:
`here:475, is:21, an:30, example:5286`, default index 0. -/
def exampleVocab : Vocab :=
  { table := [("here", 475), ("is", 21), ("an", 30), ("example", 5286)]
    default_index := 0 }

/-- The per-sample token counts `c_1 .. c_n` of a batch. -/
def sampleCounts (tok : String → List String) (v : Vocab)
    (batch : List (Int × String)) : List Nat :=
  batch.map (fun s => (text_pipeline tok v s.2).length)

/-- A concrete one-class model used to instantiate the evaluation
claim: one embedding row `[1]`, two class rows. -/
def mW : TextClassificationModel :=
  { embedding := [[1]], fc_weight := [[1], [0]], fc_bias := [0, 0] }

/-- A concrete single-batch dataset: one sample with token `0` and true
label `0`. -/
def dataW : List Batch :=
  [{ labels := [0], text := [0], offsets := [0] }]

/-- A concrete four-class model used to instantiate the prediction
claim. -/
def mW4 : TextClassificationModel :=
  { embedding := [[1]], fc_weight := [[1], [2], [0], [0]], fc_bias := [0, 0, 0, 0] }

/-! ## Claims about the label pipeline -/

/-- C3: applying the label pipeline to the raw label "10" returns 9
(`label_pipeline('10') >>> 9`, as the script's own example shows). -/
theorem label_pipeline_on_ten : label_pipeline "10" = some 9 := rfl

/-- C2 counterexample: on the numeric input "10", which is outside
{1,2,3,4}, the label pipeline neither fails nor guards: it silently
produces the out-of-range class value 9. -/
theorem label_pipeline_no_guard :
    label_pipeline "10" = some 9 ∧ ¬(0 ≤ (9 : Int) ∧ (9 : Int) ≤ 3) :=
  ⟨rfl, by decide⟩

/-- C2 (amended): the label pipeline maps {1,2,3,4} bijectively onto
{0,1,2,3}; a non-numeric input fails, but a numeric input outside
{1,2,3,4} is not rejected — every string parsing to an integer `n` is
silently mapped to `n - 1`, unguarded. -/
theorem label_pipeline_bijection :
    label_pipeline "1" = some 0 ∧ label_pipeline "2" = some 1 ∧
    label_pipeline "3" = some 2 ∧ label_pipeline "4" = some 3 ∧
    (∀ x n, str_to_int x = some n → label_pipeline x = some (n - 1)) := by
  refine ⟨rfl, rfl, rfl, rfl, ?_⟩
  intro x n h
  simp [label_pipeline, h]

/-- Closed instance of `label_pipeline_bijection` at the input "7". -/
theorem label_pipeline_bijection_witness : label_pipeline "7" = some 6 :=
  label_pipeline_bijection.2.2.2.2 "7" 7 rfl

/-! ## Claims about the text pipeline -/

/-- C4: the text pipeline is exactly tokenize-then-lookup, a token
absent from the vocabulary table maps to the reserved default index 0,
and under the vocabulary fragment of the end-to-end scenario the input
"here is an example" encodes to exactly [475, 21, 30, 5286]. -/
theorem text_pipeline_spec (tok : String → List String) (v : Vocab) (x t : String)
    (hd : v.default_index = 0) (ht : v.table.lookup t = none) :
    text_pipeline tok v x = (tok x).map v.lookup ∧
    v.lookup t = 0 ∧
    text_pipeline basic_english exampleVocab "here is an example" = [475, 21, 30, 5286] := by
  refine ⟨rfl, ?_, rfl⟩
  simp [Vocab.lookup, ht, hd]

/-- Closed instance of `text_pipeline_spec`: the unknown token "qqq"
maps to 0 and the scenario input encodes as claimed. -/
theorem text_pipeline_spec_witness :
    exampleVocab.lookup "qqq" = 0 ∧
    text_pipeline basic_english exampleVocab "here is an example" = [475, 21, 30, 5286] := by
  have h := text_pipeline_spec basic_english exampleVocab "here is an example" "qqq" rfl (by decide)
  exact ⟨h.2.1, h.2.2⟩

/-! ## Claims about the scheduler and the epoch loop -/

/-- C5 counterexample: at the end of an epoch whose validation accuracy
equals the best seen so far — so did not improve over it — the code
takes the else branch: the learning rate stays 5 instead of being
decayed to 5 * 0.1. -/
theorem epoch_update_equal_accuracy :
    epoch_update { lr := 5, total_accu := some (1/2) } (1/2)
      = { lr := 5, total_accu := some (1/2) } ∧
    ¬((1 : ℚ)/2 > 1/2) ∧ (5 : ℚ) ≠ 5 * gamma := by
  refine ⟨?_, by norm_num, by norm_num [gamma]⟩
  simp [epoch_update]

/-- C5 (amended): at the end of every epoch, if a best validation
accuracy is recorded and the epoch's validation accuracy is strictly
below it, the learning rate is multiplied by the fixed decay factor
`gamma = 0.1` and the best is kept; otherwise — first epoch, or accuracy
at least the best — the epoch's accuracy is recorded as the new
`total_accu` and the learning rate is unchanged. -/
theorem epoch_update_spec (s : LoopState) (a : ℚ) :
    (s.total_accu = none → epoch_update s a = { lr := s.lr, total_accu := some a }) ∧
    (∀ b, s.total_accu = some b → a < b →
      epoch_update s a = { lr := s.lr * gamma, total_accu := some b }) ∧
    (∀ b, s.total_accu = some b → b ≤ a →
      epoch_update s a = { lr := s.lr, total_accu := some a }) := by
  refine ⟨?_, ?_, ?_⟩
  · intro h
    simp [epoch_update, h]
  · intro b hb hlt
    simp [epoch_update, hb, scheduler_step, hlt]
  · intro b hb hle
    simp [epoch_update, hb, scheduler_step, not_lt.mpr hle]

/-- Closed instance of `epoch_update_spec`: a drop from best 3/4 to 1/2
decays the learning rate from 5 to 5 * 0.1. -/
theorem epoch_update_spec_witness :
    epoch_update { lr := 5, total_accu := some (3/4) } (1/2)
      = { lr := 5 * gamma, total_accu := some (3/4) } :=
  (epoch_update_spec { lr := 5, total_accu := some (3/4) } (1/2)).2.1 (3/4) rfl (by norm_num)

/-- C9: the epoch loop runs exactly EPOCHS = 10 iterations — epochs 1
through 10 in order —, each a TRAIN pass over the training split
followed by an EVAL pass over the validation split, whatever validation
accuracies occur; being a fold over the fixed list `range' 1 10` with a
body containing no break, it terminates after the tenth epoch. -/
theorem epoch_loop_trace (accu : Nat → ℚ) :
    EPOCHS = 10 ∧
    ((epoch_loop accu).2).map EpochRecord.epoch = List.range' 1 10 ∧
    ∀ r ∈ (epoch_loop accu).2,
      r.passes = [EpochPass.trainOnTrainSplit, EpochPass.evalOnValidSplit] := by
  refine ⟨rfl, rfl, ?_⟩
  intro r hr
  simp [epoch_loop, EPOCHS, List.range'] at hr
  rcases hr with h | h | h | h | h | h | h | h | h | h <;> simp [h]

/-- Closed instance of `epoch_loop_trace`: with constant validation
accuracy 0, the first iteration of the trace runs a TRAIN pass then an
EVAL pass. -/
theorem epoch_loop_trace_witness :
    ({ epoch := 1, passes := [EpochPass.trainOnTrainSplit, EpochPass.evalOnValidSplit] }
        : EpochRecord).passes
      = [EpochPass.trainOnTrainSplit, EpochPass.evalOnValidSplit] :=
  (epoch_loop_trace (fun _ => 0)).2.2
    { epoch := 1, passes := [EpochPass.trainOnTrainSplit, EpochPass.evalOnValidSplit] }
    (by simp [epoch_loop, EPOCHS, List.range'])

/-! ## Claims about weight initialization -/

/-- C8: immediately after `init_weights`, whatever raw uniform draws in
[0, 1] the generator produced, every entry of the embedding weight and
of the linear weight lies in the symmetric range [-0.5, 0.5], and every
entry of the linear bias is zero. -/
theorem init_weights_range (vs ed nc : Nat) (uE uW : Nat → Nat → ℚ)
    (hE : ∀ i j, 0 ≤ uE i j ∧ uE i j ≤ 1)
    (hW : ∀ i j, 0 ≤ uW i j ∧ uW i j ≤ 1) :
    (∀ row ∈ (init_weights vs ed nc uE uW).embedding, ∀ x ∈ row,
      -(1/2 : ℚ) ≤ x ∧ x ≤ 1/2) ∧
    (∀ row ∈ (init_weights vs ed nc uE uW).fc_weight, ∀ x ∈ row,
      -(1/2 : ℚ) ≤ x ∧ x ≤ 1/2) ∧
    (∀ x ∈ (init_weights vs ed nc uE uW).fc_bias, x = 0) := by
  refine ⟨?_, ?_, ?_⟩
  · intro row hrow x hx
    simp only [init_weights, List.mem_map, List.mem_range] at hrow
    obtain ⟨i, hi, rfl⟩ := hrow
    simp only [List.mem_map, List.mem_range] at hx
    obtain ⟨j, hj, rfl⟩ := hx
    have h1 := (hE i j).1
    have h2 := (hE i j).2
    constructor <;> simp only [uniformDraw, initrange] <;> linarith
  · intro row hrow x hx
    simp only [init_weights, List.mem_map, List.mem_range] at hrow
    obtain ⟨i, hi, rfl⟩ := hrow
    simp only [List.mem_map, List.mem_range] at hx
    obtain ⟨j, hj, rfl⟩ := hx
    have h1 := (hW i j).1
    have h2 := (hW i j).2
    constructor <;> simp only [uniformDraw, initrange] <;> linarith
  · intro x hx
    simp only [init_weights, List.mem_replicate] at hx
    exact hx.2

/-- Closed instance of `init_weights_range` for a 1×1×1 model whose raw
draw is 1: its single weight entry stays inside [-0.5, 0.5]. -/
theorem init_weights_range_witness :
    -(1/2 : ℚ) ≤ uniformDraw (-initrange) initrange 1 ∧
    uniformDraw (-initrange) initrange 1 ≤ 1/2 := by
  have h := init_weights_range 1 1 1 (fun i j => 1) (fun i j => 1)
    (fun i j => by norm_num) (fun i j => by norm_num)
  exact h.1 [uniformDraw (-initrange) initrange 1] (by simp [init_weights, List.range_succ])
    (uniformDraw (-initrange) initrange 1) (by simp)

/-! ## Claims about the batch collator -/

theorem cumsumFrom_length (l : List Nat) : ∀ acc, (cumsumFrom acc l).length = l.length := by
  induction l with
  | nil => intro acc; rfl
  | cons c rest ih => intro acc; simp [cumsumFrom, ih]

theorem cumsumFrom_getElem (l : List Nat) :
    ∀ (acc i : Nat), i < l.length →
      (cumsumFrom acc l)[i]? = some (acc + (l.take (i + 1)).sum) := by
  induction l with
  | nil => intro acc i h; simp at h
  | cons c rest ih =>
    intro acc i h
    cases i with
    | zero => simp [cumsumFrom]
    | succ n =>
      have hn : n < rest.length := by simpa using h
      have hrec := ih (acc + c) n hn
      simp [cumsumFrom, List.getElem?_cons_succ, hrec, Nat.add_assoc]

/-- The offsets produced by `collate_batch` from per-sample counts `L`:
entry `i` is the sum of the first `i` counts. -/
theorem offsets_getElem (L : List Nat) (i : Nat) (h : i < L.length) :
    (cumsum ((0 :: L).dropLast))[i]? = some ((L.take i).sum) := by
  have hlen : ((0 :: L).dropLast).length = L.length := by simp
  have hget := cumsumFrom_getElem ((0 :: L).dropLast) 0 i (by rw [hlen]; exact h)
  rw [cumsum, hget]
  congr 1
  have hdl : (0 :: L).dropLast = (0 :: L).take L.length := by
    rw [List.dropLast_eq_take]
    simp
  rw [hdl, List.take_take]
  have hmin : (i + 1) ⊓ L.length = i + 1 := by omega
  rw [hmin]
  simp

/-- In a flattened list of lists, the run starting at the sum of the
lengths of the first `i` blocks, of the length of block `i`, is exactly
block `i`. -/
theorem flatten_run {α : Type} (ls : List (List α)) :
    ∀ i (h : i < ls.length),
      (ls.flatten.drop (((ls.take i).map List.length).sum)).take (ls.get ⟨i, h⟩).length
        = ls.get ⟨i, h⟩ := by
  induction ls with
  | nil => intro i h; simp at h
  | cons a tl ih =>
    intro i h
    cases i with
    | zero => simp [List.take_left]
    | succ n =>
      have hn : n < tl.length := by simpa using h
      have key := ih n hn
      simp only [List.take_succ_cons, List.map_cons, List.sum_cons, List.flatten_cons,
        List.get_cons_succ]
      rw [List.drop_append]
      exact key

/-- C1: for a batch of n ≥ 1 samples, `collate_batch` returns n labels
in input order, n offsets with `offsets[0] = 0` and `offsets[i]` the sum
of the first i token counts, and a concatenated token list whose length
is the total token count and whose run starting at `offsets[i]`, of
sample i's token count, is exactly sample i's encoded token sequence. -/
theorem collate_batch_spec (tok : String → List String) (v : Vocab)
    (batch : List (Int × String)) (hn : 1 ≤ batch.length) :
    (collate_batch tok v batch).1.length = batch.length ∧
    (∀ i : Nat, (collate_batch tok v batch).1[i]?
      = (batch[i]?).map (fun (s : Int × String) => s.1 - 1)) ∧
    (collate_batch tok v batch).2.2.length = batch.length ∧
    (collate_batch tok v batch).2.2[0]? = some 0 ∧
    (∀ i, i < batch.length →
      (collate_batch tok v batch).2.2[i]?
        = some (((sampleCounts tok v batch).take i).sum)) ∧
    (collate_batch tok v batch).2.1.length = (sampleCounts tok v batch).sum ∧
    (∀ i (h : i < batch.length),
      ((collate_batch tok v batch).2.1.drop (((sampleCounts tok v batch).take i).sum)).take
          (text_pipeline tok v (batch.get ⟨i, h⟩).2).length
        = text_pipeline tok v (batch.get ⟨i, h⟩).2) := by
  have hcounts : (batch.map (fun s => text_pipeline tok v s.2)).map List.length
      = sampleCounts tok v batch := by
    simp [sampleCounts, List.map_map, Function.comp]
  have hclen : ((batch.map (fun s => text_pipeline tok v s.2)).map List.length).length
      = batch.length := by simp
  refine ⟨?_, ?_, ?_, ?_, ?_, ?_, ?_⟩
  · simp [collate_batch]
  · intro i
    simp [collate_batch, List.getElem?_map]
  · simp [collate_batch, cumsum, cumsumFrom_length]
  · have h0 := offsets_getElem
      ((batch.map (fun s => text_pipeline tok v s.2)).map List.length) 0
      (by rw [hclen]; exact hn)
    simpa [collate_batch] using h0
  · intro i hi
    have hoff := offsets_getElem
      ((batch.map (fun s => text_pipeline tok v s.2)).map List.length) i
      (by rw [hclen]; exact hi)
    rw [hcounts] at hoff
    simpa [collate_batch] using hoff
  · simp [collate_batch, List.length_flatten, hcounts]
  · intro i hi
    have hlen : i < (batch.map (fun s => text_pipeline tok v s.2)).length := by
      simpa using hi
    have hrun := flatten_run (batch.map (fun s => text_pipeline tok v s.2)) i hlen
    have hget : (batch.map (fun s => text_pipeline tok v s.2)).get ⟨i, hlen⟩
        = text_pipeline tok v (batch.get ⟨i, hi⟩).2 := by
      simp [List.get_map]
    have hsum : ((((batch.map (fun s => text_pipeline tok v s.2)).take i).map List.length)).sum
        = ((sampleCounts tok v batch).take i).sum := by
      rw [List.map_take, hcounts]
    rw [hget, hsum] at hrun
    simpa [collate_batch] using hrun

/-- Closed instance of `collate_batch_spec` on a two-sample batch with
token counts 2 and 3: the second offset is 2. -/
theorem collate_batch_spec_witness :
    (collate_batch basic_english exampleVocab
      [(3, "here is"), (1, "an zzz example")]).2.2[1]? = some 2 := by
  have h := collate_batch_spec basic_english exampleVocab
    [(3, "here is"), (1, "an zzz example")] (by decide)
  have h5 := h.2.2.2.2.1 1 (by decide)
  simpa using h5

/-! ## Claims about the model forward pass -/

/-- A bag delimited by equal consecutive offsets contains no tokens. -/
theorem bagSlices_empty_of_eq (text : List Nat) :
    ∀ (off : List Nat) (i : Nat), i + 1 < off.length →
      off[i]? = off[i + 1]? → (bagSlices text off)[i]? = some [] := by
  intro off
  induction off with
  | nil => intro i h _; simp at h
  | cons o1 rest ih =>
    intro i h heq
    cases rest with
    | nil => simp at h
    | cons o2 rest2 =>
      cases i with
      | zero =>
        simp only [List.getElem?_cons_zero, List.getElem?_cons_succ] at heq
        have ho : o1 = o2 := by simpa using heq
        simp [bagSlices, ho]
      | succ n =>
        have hrec := ih n (by simpa using h) (by simpa using heq)
        simpa [bagSlices] using hrec

/-- C7: for a sample delimited by equal consecutive offsets (a
zero-token sample) the forward pass — a total function, so it cannot
throw — produces a defined output for that sample: the embedding-bag
value is the zero vector, and the logit row is the linear layer applied
to the zero vector. -/
theorem forward_zero_token_sample (m : TextClassificationModel) (dim : Nat)
    (text offs : List Nat) (i : Nat) (h : i + 1 < offs.length)
    (heq : offs[i]? = offs[i + 1]?) :
    ((bagSlices text offs).map (bagMean m.embedding dim))[i]? = some (vzero dim) ∧
    (forward m dim text offs)[i]? = some (linear m.fc_weight m.fc_bias (vzero dim)) := by
  have hb := bagSlices_empty_of_eq text offs i h heq
  constructor
  · rw [List.getElem?_map, hb]
    simp [bagMean]
  · rw [forward, List.getElem?_map, List.getElem?_map, hb]
    simp [bagMean]

/-- Closed instance of `forward_zero_token_sample`: offsets [0, 0] make
sample 0 empty, and its logit row is the linear layer at the zero
vector. -/
theorem forward_zero_token_sample_witness :
    (forward mW 1 [0] [0, 0])[0]? = some (linear mW.fc_weight mW.fc_bias (vzero 1)) :=
  (forward_zero_token_sample mW 1 [0] [0, 0] 0 (by decide) (by decide)).2

/-! ## Claims about evaluation -/

theorem evaluate_foldl (m : TextClassificationModel) (dim : Nat) :
    ∀ (data : List Batch) (a c : Nat),
      data.foldl (fun acc b => (acc.1 + batchCorrect m dim b, acc.2 + b.labels.length)) (a, c)
        = (a + totalCorrect m dim data, c + totalCount data) := by
  intro data
  induction data with
  | nil => intro a c; simp [totalCorrect, totalCount]
  | cons b tl ih =>
    intro a c
    simp only [List.foldl_cons, ih, totalCorrect, totalCount, List.map_cons, List.sum_cons,
      Prod.mk.injEq]
    constructor <;> omega

/-- C6: on a dataloader with at least one sample, `evaluate` returns the
model parameters unchanged (no mutation — and, gradients being outside
the embedded state, no gradient computation either) together with the
overall accuracy: the number of samples whose argmax logit — computed
with the same `forward` the training pass uses — equals the true label,
divided by the total number of samples. -/
theorem evaluate_spec (m : TextClassificationModel) (dim : Nat) (data : List Batch)
    (h : totalCount data ≠ 0) :
    (evaluate m dim data).1 = m ∧
    (evaluate m dim data).2 = (totalCorrect m dim data : ℚ) / (totalCount data : ℚ) := by
  refine ⟨rfl, ?_⟩
  have hf := evaluate_foldl m dim data 0 0
  simp only [Prod.mk_zero_zero] at hf
  simp [evaluate, hf]

/-- Closed instance of `evaluate_spec` on a one-sample dataset. -/
theorem evaluate_spec_witness :
    (evaluate mW 1 dataW).1 = mW ∧
    (evaluate mW 1 dataW).2 = (totalCorrect mW 1 dataW : ℚ) / (totalCount dataW : ℚ) :=
  evaluate_spec mW 1 dataW (by decide)

/-! ## Claims about prediction -/

theorem argmaxAux_lt (xs : List ℚ) :
    ∀ (best i : Nat) (bv : ℚ), best < i → argmaxAux best bv i xs < i + xs.length := by
  induction xs with
  | nil =>
    intro best i bv h
    simpa [argmaxAux] using Nat.lt_of_lt_of_le h (Nat.le_add_right i 0)
  | cons x xs ih =>
    intro best i bv h
    simp only [argmaxAux]
    split
    · have := ih i (i + 1) x (by omega)
      simp only [List.length_cons]
      omega
    · have := ih best (i + 1) bv (by omega)
      simp only [List.length_cons]
      omega

/-- `argmax` of a nonempty row is a valid index into it. -/
theorem argmax_lt_length (l : List ℚ) (h : l ≠ []) : argmax l < l.length := by
  cases l with
  | nil => simp at h
  | cons x xs =>
    have := argmaxAux_lt xs 0 1 x (by omega)
    simp only [argmax, List.length_cons]
    omega

/-- C10: `predict` returns the argmax class index of the model output
plus one; with a four-class head (four linear rows and four biases) the
result always lies in {1, 2, 3, 4}, every one a key of `ag_news_label`,
so the final prediction lookup cannot fail. -/
theorem predict_in_range (m : TextClassificationModel) (dim : Nat)
    (tok : String → List String) (v : Vocab) (text : String)
    (hw : m.fc_weight.length = 4) (hb : m.fc_bias.length = 4)
    (hne : text_pipeline tok v text ≠ []) :
    predict m dim tok v text
      = argmax (linear m.fc_weight m.fc_bias
          (bagMean m.embedding dim (text_pipeline tok v text))) + 1 ∧
    1 ≤ predict m dim tok v text ∧ predict m dim tok v text ≤ 4 ∧
    (ag_news_label.lookup (predict m dim tok v text)).isSome = true := by
  have hrow : forward m dim (text_pipeline tok v text) [0]
      = [linear m.fc_weight m.fc_bias (bagMean m.embedding dim (text_pipeline tok v text))] := by
    simp [forward, bagSlices]
  have hpred : predict m dim tok v text
      = argmax (linear m.fc_weight m.fc_bias
          (bagMean m.embedding dim (text_pipeline tok v text))) + 1 := by
    simp [predict, hrow]
  have hlen : (linear m.fc_weight m.fc_bias
      (bagMean m.embedding dim (text_pipeline tok v text))).length = 4 := by
    simp [linear, List.length_zipWith, hw, hb]
  have hargmax : argmax (linear m.fc_weight m.fc_bias
      (bagMean m.embedding dim (text_pipeline tok v text))) < 4 := by
    rw [← hlen]
    exact argmax_lt_length _ (by intro hc; rw [hc] at hlen; simp at hlen)
  refine ⟨hpred, by omega, by rw [hpred]; omega, ?_⟩
  rw [hpred]
  set k := argmax (linear m.fc_weight m.fc_bias
    (bagMean m.embedding dim (text_pipeline tok v text))) with hk
  interval_cases k <;> decide

/-- Closed instance of `predict_in_range`: a four-class model on the
scenario text yields a prediction in {1, 2, 3, 4}. -/
theorem predict_in_range_witness :
    1 ≤ predict mW4 1 basic_english exampleVocab "here is an example" ∧
    predict mW4 1 basic_english exampleVocab "here is an example" ≤ 4 ∧
    (ag_news_label.lookup
      (predict mW4 1 basic_english exampleVocab "here is an example")).isSome = true := by
  have h := predict_in_range mW4 1 basic_english exampleVocab "here is an example"
    rfl rfl (by decide)
  exact ⟨h.2.1, h.2.2.1, h.2.2.2⟩

end AgNews
